import Mathlib

/-!
Verification of the prescription text-extraction pipeline of this
repository (an Express server whose core logic extracts structured
medicine records from OCR text).

The JavaScript helpers of `src/server.js` (extractMedicines,
extractDosage, detectTiming, detectDuration, extractDoctorName and the
response assembly of the analyze-prescription handler), of
`src/unnamed/part_003` (detectMedicines, extractDosage, extractTiming,
extractMedicineName, extractDoctorName) and of `src/unnamed/part_002`
(its inline medicine loop) are shallowly embedded below as total Lean
functions over `List Char`.  JavaScript strings are modelled as lists of
characters; `String.prototype.toLowerCase` is modelled on the ASCII
range (the only range the keyword tests exercise), `trim` and the
regex class `\s` are modelled by the ASCII whitespace characters, and
the regexes `/(\d+ ?mg|\d+ ?ml)/i`, `/(\d+\s?(mg|ml))/i`,
`/(\d+ ?days|\d+ ?weeks)/i` and `/(\d+\s?(mg|ml).*)/i` are modelled by
an explicit leftmost-match scanner whose behaviour is proved equivalent
to a declarative decomposition predicate.
-/

/-! ## Character primitives -/

/-- The decimal digits, as tested by the regex class `\d` and by
`/\d/.test` in the sources. -/
def isDigitCh (c : Char) : Bool :=
  decide (c ∈ ['0', '1', '2', '3', '4', '5', '6', '7', '8', '9'])

/-- ASCII whitespace: the characters matched by the regex class `\s`
and removed by `trim` (restricted to the ASCII range). -/
def isWsCh (c : Char) : Bool :=
  c = ' ' || c = '\t' || c = '\n' || c = '\r' || c = '\x0b' || c = '\x0c'

/-- A literal space, the only separator the patterns of `src/server.js`
accept between the digits and the unit (they use a literal blank
followed by a question mark, not the class `\s`). -/
def isSpaceCh (c : Char) : Bool := c = ' '

/-- ASCII model of `String.prototype.toLowerCase`. -/
def lowerCh (c : Char) : Char := c.toLower

/-- Lowercase a whole line. -/
def lowerL (cs : List Char) : List Char := cs.map lowerCh

/-- Model of `String.prototype.trim`: drop whitespace from both ends. -/
def trimL (cs : List Char) : List Char :=
  ((cs.dropWhile isWsCh).reverse.dropWhile isWsCh).reverse

/-- Does the needle occur at the start of the haystack
(`String.prototype.startsWith`, used to build `includes`)? -/
def prefB : List Char → List Char → Bool
  | [], _ => true
  | _ :: _, [] => false
  | a :: as, b :: bs => a = b && prefB as bs

/-- Model of `String.prototype.includes`: `inclB hay needle` scans the
haystack for an occurrence of the needle. -/
def inclB : List Char → List Char → Bool
  | [], needle => needle.isEmpty
  | c :: t, needle => prefB needle (c :: t) || inclB t needle

/-- Declarative occurrence: the needle appears contiguously inside the
haystack. -/
def InfixP (needle hay : List Char) : Prop :=
  ∃ p s, hay = p ++ needle ++ s

theorem prefB_iff (nd hay : List Char) :
    prefB nd hay = true ↔ ∃ s, hay = nd ++ s := by
  induction nd generalizing hay with
  | nil => simp [prefB]
  | cons a as ih =>
    cases hay with
    | nil => simp [prefB]
    | cons b bs =>
      simp only [prefB, Bool.and_eq_true, decide_eq_true_eq, ih]
      constructor
      · rintro ⟨rfl, s, rfl⟩; exact ⟨s, rfl⟩
      · rintro ⟨s, h⟩
        injection h with h1 h2
        exact ⟨h1.symm, s, h2⟩

theorem inclB_iff (hay nd : List Char) :
    inclB hay nd = true ↔ InfixP nd hay := by
  induction hay with
  | nil =>
    simp only [inclB, List.isEmpty_iff, InfixP]
    constructor
    · rintro rfl; exact ⟨[], [], rfl⟩
    · rintro ⟨p, s, h⟩
      rcases List.append_eq_nil.mp h.symm with ⟨h1, h2⟩
      exact (List.append_eq_nil.mp h1).2
  | cons c t ih =>
    simp only [inclB, Bool.or_eq_true, prefB_iff, ih, InfixP]
    constructor
    · rintro (⟨s, h⟩ | ⟨p, s, h⟩)
      · exact ⟨[], s, by simp [h]⟩
      · exact ⟨c :: p, s, by simp [h]⟩
    · rintro ⟨p, s, h⟩
      cases p with
      | nil => exact Or.inl ⟨s, by simpa using h⟩
      | cons x xs =>
        injection h with h1 h2
        exact Or.inr ⟨xs, s, h2⟩

/-! ## The leftmost token matcher

The regexes `/(\d+ ?mg|\d+ ?ml)/i`, `/(\d+\s?(mg|ml))/i` and
`/(\d+ ?days|\d+ ?weeks)/i` all have the shape "one or more digits, at
most one separator character, then one unit word, case-insensitively";
`String.prototype.match` without the global flag returns the leftmost
occurrence.  `doseAt` decides whether such a token starts at the head of
a character list (returning the token verbatim, in its original casing)
and `findDose` scans for the leftmost starting position. -/

/-- Try each (lowercase) unit word at the head of `cs`; on a hit return
the consumed characters verbatim. -/
def unitAt : List (List Char) → List Char → Option (List Char)
  | [], _ => none
  | u :: us, cs =>
    if lowerL (cs.take u.length) = u then some (cs.take u.length)
    else unitAt us cs

/-- Match "digits, optional separator, unit" at the head of `cs`.  The
digit run is maximal (the regex `\d+` is greedy, and a shorter run would
leave a digit where the separator or unit must start). -/
def doseAt (sep : Char → Bool) (units : List (List Char)) (cs : List Char) :
    Option (List Char) :=
  if (cs.takeWhile isDigitCh).isEmpty then none
  else
    match cs.dropWhile isDigitCh with
    | [] => none
    | c :: r2 =>
      if sep c then
        match unitAt units r2 with
        | some u => some (cs.takeWhile isDigitCh ++ c :: u)
        | none => (unitAt units (c :: r2)).map (cs.takeWhile isDigitCh ++ ·)
      else (unitAt units (c :: r2)).map (cs.takeWhile isDigitCh ++ ·)

/-- Leftmost match: the first index at which `doseAt` succeeds, with the
matched token. -/
def findDose (sep : Char → Bool) (units : List (List Char)) :
    List Char → Option (Nat × List Char)
  | [] => none
  | c :: cs =>
    match doseAt sep units (c :: cs) with
    | some m => some (0, m)
    | none => (findDose sep units cs).map fun p => (p.1 + 1, p.2)

/-! ## Declarative reading of the patterns -/

/-- A nonempty run of decimal digits (the regex `\d+`). -/
def DigitRun (d : List Char) : Prop := d ≠ [] ∧ ∀ c ∈ d, isDigitCh c = true

/-- Zero or one separator characters (the regex ` ?` resp. `\s?`). -/
def SepOpt (sep : Char → Bool) (w : List Char) : Prop :=
  w = [] ∨ ∃ c, w = [c] ∧ sep c = true

/-- The characters `u`, lowercased, spell one of the unit words. -/
def UnitHit (units : List (List Char)) (u : List Char) : Prop :=
  lowerL u ∈ units

/-- `t` is exactly one "digits, optional separator, unit" token. -/
def TokMatch (sep : Char → Bool) (units : List (List Char)) (t : List Char) :
    Prop :=
  ∃ d w u, t = d ++ w ++ u ∧ DigitRun d ∧ SepOpt sep w ∧ UnitHit units u

/-- The token `t` occurs in `cs` starting at index `i`. -/
def TokAtIs (sep : Char → Bool) (units : List (List Char)) (cs : List Char)
    (i : Nat) (t : List Char) : Prop :=
  TokMatch sep units t ∧ ∃ r, cs.drop i = t ++ r

/-- Some token occurs in `cs` starting at index `i`. -/
def TokAt (sep : Char → Bool) (units : List (List Char)) (cs : List Char)
    (i : Nat) : Prop :=
  ∃ t, TokAtIs sep units cs i t

/-- Well-formedness of a unit-word list with respect to a separator
class: every unit word is nonempty, starts with a lowercase letter that
is neither a digit nor whitespace, separators are whitespace, and two
unit words cannot both match at the same position. -/
structure UnitsOK (sep : Char → Bool) (units : List (List Char)) : Prop where
  head_ok : ∀ u ∈ units,
    ∃ c l, u = c :: l ∧ isDigitCh c = false ∧ isWsCh c = false ∧ lowerCh c = c
  sep_ws : ∀ c, sep c = true → isWsCh c = true
  sep_units : ∀ u1 ∈ units, ∀ u2 ∈ units, ∀ cs : List Char,
    lowerL (cs.take u1.length) = u1 → lowerL (cs.take u2.length) = u2 → u1 = u2

/-! ## Character-class facts -/

theorem lowerCh_of_digit {c : Char} (h : isDigitCh c = true) : lowerCh c = c := by
  have h' := of_decide_eq_true h
  fin_cases h' <;> decide

theorem lowerCh_of_ws {c : Char} (h : isWsCh c = true) : lowerCh c = c := by
  simp only [isWsCh, Bool.or_eq_true, decide_eq_true_eq] at h
  rcases h with ((((h | h) | h) | h) | h) | h <;> subst h <;> decide

theorem digit_of_lower {a b : Char} (h : lowerCh a = b)
    (hd : isDigitCh a = true) : isDigitCh b = true := by
  rw [← h, lowerCh_of_digit hd]; exact hd

theorem ws_of_lower {a b : Char} (h : lowerCh a = b)
    (hw : isWsCh a = true) : isWsCh b = true := by
  rw [← h, lowerCh_of_ws hw]; exact hw

theorem ws_not_digit {c : Char} (h : isWsCh c = true) : isDigitCh c = false := by
  simp only [isWsCh, Bool.or_eq_true, decide_eq_true_eq] at h
  rcases h with ((((h | h) | h) | h) | h) | h <;> subst h <;> decide

/-! ## List helpers -/

theorem mem_takeWhile_pred {p : Char → Bool} :
    ∀ {l : List Char} {c : Char}, c ∈ l.takeWhile p → p c = true := by
  intro l
  induction l with
  | nil => intro c h; simp [List.takeWhile] at h
  | cons a t ih =>
    intro c h
    by_cases hp : p a = true
    · rw [List.takeWhile_cons_of_pos hp] at h
      rcases List.mem_cons.mp h with rfl | h'
      · exact hp
      · exact ih h'
    · rw [List.takeWhile_cons_of_neg (by simpa using hp)] at h
      simp at h

theorem takeWhile_all_append {p : Char → Bool} {d r : List Char}
    (h : ∀ c ∈ d, p c = true) :
    (d ++ r).takeWhile p = d ++ r.takeWhile p := by
  induction d with
  | nil => simp
  | cons a t ih =>
    have ha : p a = true := h a (List.mem_cons_self _ _)
    simp only [List.cons_append, List.takeWhile_cons_of_pos ha]
    rw [ih fun c hc => h c (List.mem_cons_of_mem _ hc)]

theorem dropWhile_all_append {p : Char → Bool} {d r : List Char}
    (h : ∀ c ∈ d, p c = true) :
    (d ++ r).dropWhile p = r.dropWhile p := by
  induction d with
  | nil => simp
  | cons a t ih =>
    have ha : p a = true := h a (List.mem_cons_self _ _)
    simp only [List.cons_append, List.dropWhile_cons_of_pos ha]
    exact ih fun c hc => h c (List.mem_cons_of_mem _ hc)

/-! ## Soundness and completeness of the matcher -/

theorem unitAt_some {units : List (List Char)} {cs u : List Char}
    (h : unitAt units cs = some u) :
    UnitHit units u ∧ ∃ r, cs = u ++ r := by
  induction units with
  | nil => simp [unitAt] at h
  | cons v vs ih =>
    rw [unitAt] at h
    by_cases hv : lowerL (cs.take v.length) = v
    · rw [if_pos hv] at h
      injection h with h
      subst h
      exact ⟨List.mem_cons.mpr (Or.inl hv), cs.drop v.length,
        (List.take_append_drop _ _).symm⟩
    · rw [if_neg hv] at h
      obtain ⟨hit, r, hr⟩ := ih h
      exact ⟨List.mem_cons.mpr (Or.inr hit), r, hr⟩

theorem unitAt_hit {units : List (List Char)}
    (hsep : ∀ u1 ∈ units, ∀ u2 ∈ units, ∀ cs : List Char,
      lowerL (cs.take u1.length) = u1 → lowerL (cs.take u2.length) = u2 →
      u1 = u2)
    {cs u r : List Char} (hu : UnitHit units u) (hcs : cs = u ++ r) :
    unitAt units cs = some u := by
  have htk : cs.take (lowerL u).length = u := by
    rw [hcs, lowerL, List.length_map, List.take_left]
  have hlen : lowerL (cs.take (lowerL u).length) = lowerL u := by rw [htk]
  induction units with
  | nil => simp [UnitHit] at hu
  | cons v vs ih =>
    rw [unitAt]
    by_cases hv : lowerL (cs.take v.length) = v
    · rw [if_pos hv]
      have hveq : v = lowerL u :=
        hsep v (List.mem_cons_self _ _) (lowerL u) hu cs hv hlen
      rw [hveq, htk]
    · rw [if_neg hv]
      have hmem : lowerL u ∈ vs := by
        rcases List.mem_cons.mp hu with h | h
        · exact absurd (h ▸ hlen) hv
        · exact h
      exact ih (fun u1 h1 u2 h2 => hsep u1 (List.mem_cons_of_mem _ h1) u2
        (List.mem_cons_of_mem _ h2)) hmem

theorem doseAt_sound {sep : Char → Bool} {units : List (List Char)}
    {cs m : List Char} (h : doseAt sep units cs = some m) :
    TokMatch sep units m ∧ ∃ r, cs = m ++ r := by
  rw [doseAt] at h
  by_cases hD : (cs.takeWhile isDigitCh).isEmpty
  · rw [if_pos hD] at h; exact absurd h (by simp)
  rw [if_neg hD] at h
  have hdne : cs.takeWhile isDigitCh ≠ [] := by
    simpa [List.isEmpty_iff] using hD
  have hddig : ∀ x ∈ cs.takeWhile isDigitCh, isDigitCh x = true :=
    fun x hx => mem_takeWhile_pred hx
  rcases hR : cs.dropWhile isDigitCh with _ | ⟨c, r2⟩
  · rw [hR] at h; exact absurd h (by simp)
  rw [hR] at h
  dsimp only at h
  have hcs : cs.takeWhile isDigitCh ++ (c :: r2) = cs := by
    rw [← hR]; exact List.takeWhile_append_dropWhile _ _
  by_cases hsep : sep c = true
  · rw [if_pos hsep] at h
    rcases hU : unitAt units r2 with _ | u
    · rw [hU] at h
      rcases hU2 : unitAt units (c :: r2) with _ | u
      · rw [hU2] at h; exact absurd h (by simp)
      · rw [hU2] at h
        simp only [Option.map_some'] at h
        injection h with h
        obtain ⟨hit, r, hr⟩ := unitAt_some hU2
        refine ⟨⟨cs.takeWhile isDigitCh, [], u, by simp [← h],
          ⟨hdne, hddig⟩, Or.inl rfl, hit⟩, r, ?_⟩
        rw [← hcs, hr, ← h]; simp
    · rw [hU] at h
      injection h with h
      obtain ⟨hit, r, hr⟩ := unitAt_some hU
      refine ⟨⟨cs.takeWhile isDigitCh, [c], u, by simp [← h],
        ⟨hdne, hddig⟩, Or.inr ⟨c, rfl, hsep⟩, hit⟩, r, ?_⟩
      rw [← hcs, hr, ← h]; simp
  · rw [if_neg hsep] at h
    rcases hU2 : unitAt units (c :: r2) with _ | u
    · rw [hU2] at h; exact absurd h (by simp)
    · rw [hU2] at h
      simp only [Option.map_some'] at h
      injection h with h
      obtain ⟨hit, r, hr⟩ := unitAt_some hU2
      refine ⟨⟨cs.takeWhile isDigitCh, [], u, by simp [← h],
        ⟨hdne, hddig⟩, Or.inl rfl, hit⟩, r, ?_⟩
      rw [← hcs, hr, ← h]; simp

theorem doseAt_complete {sep : Char → Bool} {units : List (List Char)}
    (hOK : UnitsOK sep units) {cs t r : List Char}
    (hT : TokMatch sep units t) (hcs : cs = t ++ r) :
    doseAt sep units cs = some t := by
  obtain ⟨d, w, u, rfl, ⟨hdne, hdd⟩, hw, hu⟩ := hT
  obtain ⟨c1, l1, hu1, hc1d, hc1w, hc1l⟩ := hOK.head_ok (lowerL u) hu
  obtain ⟨c0, u', rfl⟩ : ∃ c0 u', u = c0 :: u' := by
    cases u with
    | nil => exact absurd hu1 (by simp [lowerL])
    | cons a b => exact ⟨a, b, rfl⟩
  have hc0l : lowerCh c0 = c1 := by
    have : lowerL (c0 :: u') = c1 :: l1 := hu1
    simpa [lowerL] using congrArg (fun l => l.headI) this
  have hc0d : isDigitCh c0 = false := by
    by_contra hx
    have hx' : isDigitCh c0 = true := by revert hx; cases isDigitCh c0 <;> simp
    have := digit_of_lower hc0l hx'
    rw [hc1d] at this; exact Bool.noConfusion this
  have hc0w : isWsCh c0 = false := by
    by_contra hx
    have hx' : isWsCh c0 = true := by revert hx; cases isWsCh c0 <;> simp
    have := ws_of_lower hc0l hx'
    rw [hc1w] at this; exact Bool.noConfusion this
  have hc0s : sep c0 = false := by
    by_contra hx
    have hx' : sep c0 = true := by revert hx; cases sep c0 <;> simp
    have := hOK.sep_ws c0 hx'
    rw [hc0w] at this; exact Bool.noConfusion this
  rcases hw with rfl | ⟨c, rfl, hsepc⟩
  · -- no separator: cs = d ++ (c0 :: u') ++ r
    have hsplit : cs = d ++ (c0 :: (u' ++ r)) := by
      rw [hcs]; simp
    have h1 : cs.takeWhile isDigitCh = d := by
      rw [hsplit, takeWhile_all_append hdd,
        List.takeWhile_cons_of_neg (by simp [hc0d]), List.append_nil]
    have h2 : cs.dropWhile isDigitCh = c0 :: (u' ++ r) := by
      rw [hsplit, dropWhile_all_append hdd,
        List.dropWhile_cons_of_neg (by simp [hc0d])]
    rw [doseAt, h1, h2, if_neg (by simp [hdne])]
    dsimp only
    rw [if_neg (by simp [hc0s]),
      unitAt_hit hOK.sep_units hu
        (show c0 :: (u' ++ r) = (c0 :: u') ++ r by simp)]
    simp
  · -- one separator: cs = d ++ [c] ++ (c0 :: u') ++ r
    have hcw : isWsCh c = true := hOK.sep_ws c hsepc
    have hcd : isDigitCh c = false := ws_not_digit hcw
    have hsplit : cs = d ++ (c :: (c0 :: u' ++ r)) := by
      rw [hcs]; simp
    have h1 : cs.takeWhile isDigitCh = d := by
      rw [hsplit, takeWhile_all_append hdd,
        List.takeWhile_cons_of_neg (by simp [hcd]), List.append_nil]
    have h2 : cs.dropWhile isDigitCh = c :: (c0 :: u' ++ r) := by
      rw [hsplit, dropWhile_all_append hdd,
        List.dropWhile_cons_of_neg (by simp [hcd])]
    rw [doseAt, h1, h2, if_neg (by simp [hdne])]
    dsimp only
    rw [if_pos hsepc, unitAt_hit hOK.sep_units hu rfl]
    simp

theorem doseAt_nil {sep : Char → Bool} {units : List (List Char)} :
    doseAt sep units [] = none := rfl

theorem findDose_none_all {sep : Char → Bool} {units : List (List Char)} :
    ∀ {cs : List Char}, findDose sep units cs = none →
      ∀ i, doseAt sep units (cs.drop i) = none := by
  intro cs
  induction cs with
  | nil => intro _ i; rw [List.drop_nil]; exact doseAt_nil
  | cons c t ih =>
    intro h i
    rw [findDose] at h
    rcases hA : doseAt sep units (c :: t) with _ | m
    · rw [hA] at h
      dsimp only at h
      cases i with
      | zero => exact hA
      | succ j =>
        rw [List.drop_succ_cons]
        exact ih (by rcases hF : findDose sep units t with _ | p
                     · rfl
                     · rw [hF] at h; simp at h) j
    · rw [hA] at h; exact absurd h (by simp)

theorem findDose_some_spec {sep : Char → Bool} {units : List (List Char)} :
    ∀ {cs : List Char} {i : Nat} {m : List Char},
      findDose sep units cs = some (i, m) →
      doseAt sep units (cs.drop i) = some m ∧
        ∀ j < i, doseAt sep units (cs.drop j) = none := by
  intro cs
  induction cs with
  | nil => intro i m h; rw [findDose] at h; exact absurd h (by simp)
  | cons c t ih =>
    intro i m h
    rw [findDose] at h
    rcases hA : doseAt sep units (c :: t) with _ | m0
    · rw [hA] at h
      dsimp only at h
      rcases hF : findDose sep units t with _ | p
      · rw [hF] at h; exact absurd h (by simp)
      · rw [hF] at h
        simp only [Option.map_some'] at h
        injection h with h
        obtain ⟨rfl, rfl⟩ : p.1 + 1 = i ∧ p.2 = m := by
          constructor <;> [exact congrArg Prod.fst h; exact congrArg Prod.snd h]
        obtain ⟨h1, h2⟩ := ih (by rw [hF])
        refine ⟨by rw [List.drop_succ_cons]; exact h1, fun j hj => ?_⟩
        cases j with
        | zero => exact hA
        | succ k =>
          rw [List.drop_succ_cons]
          exact h2 k (Nat.lt_of_succ_lt_succ hj)
    · rw [hA] at h
      dsimp only at h
      injection h with h
      obtain ⟨rfl, rfl⟩ : 0 = i ∧ m0 = m := by
        constructor <;> [exact congrArg Prod.fst h; exact congrArg Prod.snd h]
      exact ⟨hA, fun j hj => absurd hj (Nat.not_lt_zero j)⟩

/-- Case analysis on the leftmost-match scanner: either no token occurs
anywhere and the scan fails, or the scan returns the token at the least
index at which one occurs. -/
theorem findDose_cases {sep : Char → Bool} {units : List (List Char)}
    (hOK : UnitsOK sep units) (cs : List Char) :
    ((∀ i, ¬ TokAt sep units cs i) ∧ findDose sep units cs = none) ∨
    (∃ i t, TokAtIs sep units cs i t ∧ (∀ j < i, ¬ TokAt sep units cs j) ∧
      findDose sep units cs = some (i, t)) := by
  rcases h : findDose sep units cs with _ | ⟨i, m⟩
  · left
    refine ⟨fun i hTok => ?_, rfl⟩
    obtain ⟨t, hT, r, hr⟩ := hTok
    have hsome := doseAt_complete hOK hT hr
    rw [findDose_none_all h i] at hsome
    exact Option.noConfusion hsome
  · right
    obtain ⟨h1, h2⟩ := findDose_some_spec h
    obtain ⟨hT, r, hr⟩ := doseAt_sound h1
    refine ⟨i, m, ⟨hT, r, hr⟩, fun j hj hTok => ?_, rfl⟩
    obtain ⟨t, ht, r', hr'⟩ := hTok
    have hsome := doseAt_complete hOK ht hr'
    rw [h2 j hj] at hsome
    exact Option.noConfusion hsome

/-- A token occurs at `i` exactly when the positional matcher succeeds
there; with it, occurrence claims about concrete inputs are decidable. -/
theorem tokAt_iff_doseAt {sep : Char → Bool} {units : List (List Char)}
    (hOK : UnitsOK sep units) (cs : List Char) (i : Nat) :
    TokAt sep units cs i ↔ (doseAt sep units (cs.drop i)).isSome = true := by
  constructor
  · rintro ⟨t, hT, r, hr⟩
    rw [doseAt_complete hOK hT hr]; rfl
  · intro h
    rcases hA : doseAt sep units (cs.drop i) with _ | m
    · rw [hA] at h; exact Bool.noConfusion h
    · obtain ⟨hT, r, hr⟩ := doseAt_sound hA
      exact ⟨m, hT, r, hr⟩

/-- A whole list is one token exactly when the positional matcher
consumes it entirely. -/
theorem tokMatch_iff_doseAt {sep : Char → Bool} {units : List (List Char)}
    (hOK : UnitsOK sep units) (t : List Char) :
    TokMatch sep units t ↔ doseAt sep units t = some t := by
  constructor
  · intro hT
    exact @doseAt_complete sep units hOK t t [] hT (by simp)
  · intro h
    exact (doseAt_sound h).1

/-! ## The concrete unit sets of the sources -/

/-- The unit word mg. -/
def mgU : List Char := ['m', 'g']

/-- The unit word ml. -/
def mlU : List Char := ['m', 'l']

/-- The duration word days. -/
def daysU : List Char := ['d', 'a', 'y', 's']

/-- The duration word weeks. -/
def weeksU : List Char := ['w', 'e', 'e', 'k', 's']

/-- The alternatives of the dosage regexes, in source order. -/
def doseUnits : List (List Char) := [mgU, mlU]

/-- The alternatives of the duration regex of `src/server.js`. -/
def durUnits : List (List Char) := [daysU, weeksU]

theorem doseUnits_head : ∀ u ∈ doseUnits,
    ∃ c l, u = c :: l ∧ isDigitCh c = false ∧ isWsCh c = false ∧
      lowerCh c = c := by
  intro u hu
  rcases List.mem_cons.mp hu with rfl | hu
  · exact ⟨'m', ['g'], rfl, by decide, by decide, by decide⟩
  rcases List.mem_cons.mp hu with rfl | hu
  · exact ⟨'m', ['l'], rfl, by decide, by decide, by decide⟩
  · simp at hu

theorem durUnits_head : ∀ u ∈ durUnits,
    ∃ c l, u = c :: l ∧ isDigitCh c = false ∧ isWsCh c = false ∧
      lowerCh c = c := by
  intro u hu
  rcases List.mem_cons.mp hu with rfl | hu
  · exact ⟨'d', ['a', 'y', 's'], rfl, by decide, by decide, by decide⟩
  rcases List.mem_cons.mp hu with rfl | hu
  · exact ⟨'w', ['e', 'e', 'k', 's'], rfl, by decide, by decide, by decide⟩
  · simp at hu

theorem doseUnits_sep : ∀ u1 ∈ doseUnits, ∀ u2 ∈ doseUnits,
    ∀ cs : List Char, lowerL (cs.take u1.length) = u1 →
      lowerL (cs.take u2.length) = u2 → u1 = u2 := by
  intro u1 h1 u2 h2 cs e1 e2
  rcases List.mem_cons.mp h1 with rfl | h1 <;>
    [skip; rcases List.mem_cons.mp h1 with rfl | h1] <;>
    first
      | (rcases List.mem_cons.mp h2 with rfl | h2 <;>
          [skip; rcases List.mem_cons.mp h2 with rfl | h2] <;>
          first
            | rfl
            | (exact absurd (e1.symm.trans e2) (by decide))
            | simp at h2)
      | simp at h1

theorem durUnits_sep : ∀ u1 ∈ durUnits, ∀ u2 ∈ durUnits,
    ∀ cs : List Char, lowerL (cs.take u1.length) = u1 →
      lowerL (cs.take u2.length) = u2 → u1 = u2 := by
  have key : ∀ cs : List Char, lowerL (cs.take daysU.length) = daysU →
      lowerL (cs.take weeksU.length) = weeksU → False := by
    intro cs e1 e2
    simp only [lowerL, List.map_take] at e1 e2
    have h4 : (cs.map lowerCh).take 4 = daysU := e1
    have h5 : (cs.map lowerCh).take 5 = weeksU := e2
    have : ((cs.map lowerCh).take 5).take 4 = (cs.map lowerCh).take 4 := by
      rw [List.take_take]
      norm_num
    rw [h4, h5] at this
    exact absurd this (by decide)
  intro u1 h1 u2 h2 cs e1 e2
  rcases List.mem_cons.mp h1 with rfl | h1 <;>
    [skip; rcases List.mem_cons.mp h1 with rfl | h1]
  · rcases List.mem_cons.mp h2 with rfl | h2 <;>
      [skip; rcases List.mem_cons.mp h2 with rfl | h2]
    · rfl
    · exact absurd (key cs e1 e2) not_false
    · simp at h2
  · rcases List.mem_cons.mp h2 with rfl | h2 <;>
      [skip; rcases List.mem_cons.mp h2 with rfl | h2]
    · exact absurd (key cs e2 e1) not_false
    · rfl
    · simp at h2
  · simp at h1

theorem space_ws : ∀ c, isSpaceCh c = true → isWsCh c = true := by
  intro c h
  have : c = ' ' := by simpa [isSpaceCh] using h
  subst this; decide

theorem unitsOK_space_dose : UnitsOK isSpaceCh doseUnits :=
  ⟨doseUnits_head, space_ws, doseUnits_sep⟩

theorem unitsOK_ws_dose : UnitsOK isWsCh doseUnits :=
  ⟨doseUnits_head, fun _ h => h, doseUnits_sep⟩

theorem unitsOK_space_dur : UnitsOK isSpaceCh durUnits :=
  ⟨durUnits_head, space_ws, durUnits_sep⟩

/-! ## Embedded source functions

Each definition below translates one JavaScript function of the
repository; names follow the sources (`extractDosage`, `detectTiming`,
`detectDuration`, `extractMedicines`, `extractDoctorName` from
`src/server.js`; `detectMedicines`, `extractDosage3`, `extractTiming`,
`extractMedicineName` from `src/unnamed/part_003`, where the suffix 3
disambiguates the second file's `extractDosage`; `p2Medicines` for the
inline loop of `src/unnamed/part_002`). -/

/-- `text.split("\n")` of the sources: split on every newline, keeping
empty segments (the empty string yields one empty line). -/
def splitLines : List Char → List (List Char)
  | [] => [[]]
  | c :: cs =>
    if c = '\n' then [] :: splitLines cs
    else
      match splitLines cs with
      | l :: ls => (c :: l) :: ls
      | [] => [[c]]

/-- One medicine record as pushed by `extractMedicines` of
`src/server.js` and `detectMedicines` of `src/unnamed/part_003`. -/
structure MedEntry where
  name : List Char
  dosage : List Char
  timing : List Char
  duration : List Char
deriving DecidableEq

/-- `extractDosage` of `src/server.js`:
`text.match(/(\d+ ?mg|\d+ ?ml)/i)`, first match verbatim, else the
sentinel. -/
def extractDosage (cs : List Char) : List Char :=
  match findDose isSpaceCh doseUnits cs with
  | some p => p.2
  | none => ("Not specified").data

/-- `detectTiming` of `src/server.js`: keyword tests on the lowercased
line, in source order. -/
def detectTiming (cs : List Char) : List Char :=
  if inclB (lowerL cs) ("bd").data || inclB (lowerL cs) ("twice").data then
    ("Twice Daily").data
  else if inclB (lowerL cs) ("tds").data || inclB (lowerL cs) ("thrice").data then
    ("Three Times Daily").data
  else if inclB (lowerL cs) ("od").data || inclB (lowerL cs) ("once").data then
    ("Once Daily").data
  else ("Follow doctor instructions").data

/-- `detectDuration` of `src/server.js`:
`text.match(/(\d+ ?days|\d+ ?weeks)/i)`, first match verbatim, else the
sentinel. -/
def detectDuration (cs : List Char) : List Char :=
  match findDose isSpaceCh durUnits cs with
  | some p => p.2
  | none => ("As prescribed").data

/-- The keyword test of `extractMedicines` in `src/server.js`: the
lowercased line contains mg, tablet, tab, capsule, syrup or ml (in
source order); note there is no digit requirement. -/
def serverAccepts (line : List Char) : Bool :=
  inclB (lowerL line) ("mg").data ||
  inclB (lowerL line) ("tablet").data ||
  inclB (lowerL line) ("tab").data ||
  inclB (lowerL line) ("capsule").data ||
  inclB (lowerL line) ("syrup").data ||
  inclB (lowerL line) ("ml").data

/-- The record `extractMedicines` of `src/server.js` pushes for an
accepted line. -/
def mkServerEntry (line : List Char) : MedEntry :=
  ⟨trimL line, extractDosage line, detectTiming line, detectDuration line⟩

/-- The accumulating `forEach` loop shared by `extractMedicines`,
`detectMedicines` and the `part_002` handler: test each line in order,
push a record for each accepted line. -/
def medsFold (acc : List Char → Bool) (mk : List Char → MedEntry) :
    List (List Char) → List MedEntry
  | [] => []
  | l :: ls =>
    if acc l then mk l :: medsFold acc mk ls else medsFold acc mk ls

/-- `extractMedicines` of `src/server.js`. -/
def extractMedicines (text : List Char) : List MedEntry :=
  medsFold serverAccepts mkServerEntry (splitLines text)

/-- `extractDosage` of `src/unnamed/part_003`:
`text.match(/(\d+\s?(mg|ml))/i)` (the separator class is `\s`, unlike
the literal blank of `src/server.js`). -/
def extractDosage3 (cs : List Char) : List Char :=
  match findDose isWsCh doseUnits cs with
  | some p => p.2
  | none => ("Not specified").data

/-- `extractTiming` of `src/unnamed/part_003`. -/
def extractTiming (cs : List Char) : List Char :=
  if inclB (lowerL cs) ("bd").data then ("Twice Daily").data
  else if inclB (lowerL cs) ("td").data then ("Three Times Daily").data
  else if inclB (lowerL cs) ("qd").data || inclB (lowerL cs) ("od").data then
    ("Once Daily").data
  else ("Follow doctor instructions").data

/-- The regex dot: any character but a line terminator. -/
def dotOk (c : Char) : Bool := !(c = '\n' || c = '\r')

/-- `extractMedicineName` of `src/unnamed/part_003`:
`text.replace(/(\d+\s?(mg|ml).*)/i, "").trim()` — the first dosage
token and everything after it up to a line terminator is removed, then
the result is trimmed. -/
def extractMedicineName (cs : List Char) : List Char :=
  match findDose isWsCh doseUnits cs with
  | some p =>
    trimL (cs.take p.1 ++ (cs.drop (p.1 + p.2.length)).dropWhile dotOk)
  | none => trimL cs

/-- The `isMedicine` test of `detectMedicines` in
`src/unnamed/part_003`: the trimmed line contains a digit AND its
lowercased form contains one of mg, ml, tab, cap, bd, td, qd, od. -/
def p3Accepts (line : List Char) : Bool :=
  (trimL line).any isDigitCh &&
    (inclB (lowerL (trimL line)) ("mg").data ||
     inclB (lowerL (trimL line)) ("ml").data ||
     inclB (lowerL (trimL line)) ("tab").data ||
     inclB (lowerL (trimL line)) ("cap").data ||
     inclB (lowerL (trimL line)) ("bd").data ||
     inclB (lowerL (trimL line)) ("td").data ||
     inclB (lowerL (trimL line)) ("qd").data ||
     inclB (lowerL (trimL line)) ("od").data)

/-- The record `detectMedicines` of `src/unnamed/part_003` pushes: all
fields are computed from the trimmed line, and the duration is the
constant string "As prescribed". -/
def mkP3Entry (line : List Char) : MedEntry :=
  ⟨extractMedicineName (trimL line), extractDosage3 (trimL line),
    extractTiming (trimL line), ("As prescribed").data⟩

/-- `detectMedicines` of `src/unnamed/part_003`. -/
def detectMedicines (text : List Char) : List MedEntry :=
  medsFold p3Accepts mkP3Entry (splitLines text)

/-- The keyword test of the `part_002` handler's inline loop (mg,
tablet, tab, capsule, syrup; no digit requirement, no ml). -/
def p2Accepts (line : List Char) : Bool :=
  inclB (lowerL line) ("mg").data ||
  inclB (lowerL line) ("tablet").data ||
  inclB (lowerL line) ("tab").data ||
  inclB (lowerL line) ("capsule").data ||
  inclB (lowerL line) ("syrup").data

/-- The record the `part_002` handler pushes: fixed strings for all
fields but the name. -/
def mkP2Entry (line : List Char) : MedEntry :=
  ⟨trimL line, ("As prescribed").data, ("Follow doctor instructions").data,
    ("Check prescription").data⟩

/-- The inline medicine loop of the `part_002` handler. -/
def p2Medicines (text : List Char) : List MedEntry :=
  medsFold p2Accepts mkP2Entry (splitLines text)

/-- The scanning loop of `extractDoctorName` (identical in
`src/server.js` and `src/unnamed/part_003`): return the first line
whose lowercased form contains "dr", trimmed. -/
def findDoctor : List (List Char) → List Char
  | [] => ("Doctor name not detected").data
  | l :: ls => if inclB (lowerL l) ("dr").data then trimL l else findDoctor ls

/-- `extractDoctorName` of `src/server.js` and `src/unnamed/part_003`. -/
def extractDoctorName (text : List Char) : List Char :=
  findDoctor (splitLines text)

/-! ## Response assembly of the analyze-prescription handler -/

/-- One entry of the `medicines` array of the response.  The real
entries carry all four fields; the placeholder object carries only
`name`, so the other three are optional here. -/
structure RespEntry where
  name : List Char
  dosage : Option (List Char)
  timing : Option (List Char)
  duration : Option (List Char)
deriving DecidableEq

/-- View a medicine record as a response entry. -/
def toResp (e : MedEntry) : RespEntry :=
  ⟨e.name, some e.dosage, some e.timing, some e.duration⟩

/-- The placeholder `{ name: "No clear medicines detected" }`. -/
def placeholderEntry : RespEntry :=
  ⟨("No clear medicines detected").data, none, none, none⟩

/-- The conditional of the handler in `src/server.js`:
`medicines.length > 0 ? medicines : [{ name: ... }]`. -/
def analyzeMedicines (text : List Char) : List RespEntry :=
  if (extractMedicines text).length > 0 then
    (extractMedicines text).map toResp
  else [placeholderEntry]

/-- The `{ medicines, doctor }` part of the response body. -/
structure ExtractionResult where
  medicines : List RespEntry
  doctor : List Char
deriving DecidableEq

/-- The full extraction pipeline of `src/server.js`: the response the
handler builds from the OCR text. -/
def analyzeResult (text : List Char) : ExtractionResult :=
  ⟨analyzeMedicines text, extractDoctorName text⟩

/-! ## Pipeline lemmas -/

theorem inclB_of_infixP {hay nd : List Char} (h : InfixP nd hay) :
    inclB hay nd = true := (inclB_iff _ _).mpr h

theorem inclB_of_notInfixP {hay nd : List Char} (h : ¬ InfixP nd hay) :
    inclB hay nd = false := by
  cases hx : inclB hay nd
  · rfl
  · exact absurd ((inclB_iff _ _).mp hx) h

theorem infixP_of_drop {cs t r : List Char} {i : Nat}
    (h : cs.drop i = t ++ r) : InfixP t cs := by
  refine ⟨cs.take i, r, ?_⟩
  conv_lhs => rw [← List.take_append_drop i cs]
  rw [h, List.append_assoc]

theorem medsFold_eq (acc : List Char → Bool) (mk : List Char → MedEntry) :
    ∀ ls : List (List Char), medsFold acc mk ls = (ls.filter acc).map mk := by
  intro ls
  induction ls with
  | nil => rfl
  | cons l t ih =>
    rw [medsFold]
    by_cases h : acc l = true
    · rw [if_pos h, List.filter_cons_of_pos h, List.map_cons, ih]
    · rw [if_neg h, List.filter_cons_of_neg (by simpa using h), ih]

theorem mem_medsFold {acc : List Char → Bool} {mk : List Char → MedEntry}
    {ls : List (List Char)} {e : MedEntry} (h : e ∈ medsFold acc mk ls) :
    ∃ l, l ∈ ls ∧ acc l = true ∧ e = mk l := by
  rw [medsFold_eq] at h
  obtain ⟨l, hl, rfl⟩ := List.mem_map.mp h
  obtain ⟨hmem, hacc⟩ := List.mem_filter.mp hl
  exact ⟨l, hmem, hacc, rfl⟩

theorem findDoctor_cases : ∀ ls : List (List Char),
    ((∀ l ∈ ls, inclB (lowerL l) (("dr").data) = false) ∧
      findDoctor ls = ("Doctor name not detected").data) ∨
    (∃ pre l post, ls = pre ++ l :: post ∧
      inclB (lowerL l) (("dr").data) = true ∧
      (∀ l' ∈ pre, inclB (lowerL l') (("dr").data) = false) ∧
      findDoctor ls = trimL l) := by
  intro ls
  induction ls with
  | nil => left; exact ⟨by simp, rfl⟩
  | cons a t ih =>
    by_cases ha : inclB (lowerL a) (("dr").data) = true
    · right
      exact ⟨[], a, t, rfl, ha, by simp, by rw [findDoctor, if_pos ha]⟩
    · have ha' : inclB (lowerL a) (("dr").data) = false := by
        revert ha; cases inclB (lowerL a) (("dr").data) <;> simp
      rcases ih with ⟨hall, heq⟩ | ⟨pre, l, post, hpt, hl, hpre, heq⟩
      · left
        refine ⟨fun l hl => ?_, ?_⟩
        · rcases List.mem_cons.mp hl with rfl | h
          · exact ha'
          · exact hall l h
        · rw [findDoctor, if_neg (by simp [ha'])]; exact heq
      · right
        refine ⟨a :: pre, l, post, by rw [hpt]; rfl, hl, ?_, ?_⟩
        · intro l' hl'
          rcases List.mem_cons.mp hl' with rfl | h
          · exact ha'
          · exact hpre l' h
        · rw [findDoctor, if_neg (by simp [ha'])]; exact heq

theorem detectTiming_mem (cs : List Char) :
    detectTiming cs = ("Twice Daily").data ∨
    detectTiming cs = ("Three Times Daily").data ∨
    detectTiming cs = ("Once Daily").data ∨
    detectTiming cs = ("Follow doctor instructions").data := by
  rw [detectTiming]
  split_ifs <;> tauto

theorem extractTiming_mem (cs : List Char) :
    extractTiming cs = ("Twice Daily").data ∨
    extractTiming cs = ("Three Times Daily").data ∨
    extractTiming cs = ("Once Daily").data ∨
    extractTiming cs = ("Follow doctor instructions").data := by
  rw [extractTiming]
  split_ifs <;> tauto

/-! ## Whitespace-separated occurrences (for the single-space limitation) -/

/-- A digits-then-whitespace-then-unit occurrence starting at index `i`
of `cs`, whose separating whitespace run has length `n` (any `n`,
unlike the at-most-one-separator tokens above). -/
def OccSepAt (units : List (List Char)) (cs : List Char) (i n : Nat) :
    Prop :=
  ∃ d w u r, cs.drop i = d ++ w ++ u ++ r ∧ DigitRun d ∧
    (∀ c ∈ w, isWsCh c = true) ∧ n = w.length ∧ UnitHit units u

/-- Computational form of `OccSepAt` at the head of a list: the length
of the whitespace run between the digit run and a unit hit. -/
def sepLenAt (units : List (List Char)) (cs : List Char) : Option Nat :=
  if (cs.takeWhile isDigitCh).isEmpty then none
  else
    if (unitAt units ((cs.dropWhile isDigitCh).dropWhile isWsCh)).isSome then
      some ((cs.dropWhile isDigitCh).takeWhile isWsCh).length
    else none

theorem unitAt_isSome_of_hit {units : List (List Char)}
    (hsepu : ∀ u1 ∈ units, ∀ u2 ∈ units, ∀ cs : List Char,
      lowerL (cs.take u1.length) = u1 → lowerL (cs.take u2.length) = u2 →
      u1 = u2)
    {cs u r : List Char} (hu : UnitHit units u) (hcs : cs = u ++ r) :
    (unitAt units cs).isSome = true := by
  rw [unitAt_hit hsepu hu hcs]; rfl

theorem split_decomp (A B C w u r : List Char) (e1 : A ++ B = C)
    (e2 : w ++ (u ++ r) = B) : C = A ++ w ++ u ++ r := by
  subst e1
  rw [← e2]
  simp [List.append_assoc]

theorem occSepAt_iff {units : List (List Char)}
    (hhead : ∀ u ∈ units, ∃ c l, u = c :: l ∧ isDigitCh c = false ∧
      isWsCh c = false ∧ lowerCh c = c)
    (hsepu : ∀ u1 ∈ units, ∀ u2 ∈ units, ∀ cs : List Char,
      lowerL (cs.take u1.length) = u1 → lowerL (cs.take u2.length) = u2 →
      u1 = u2)
    (cs : List Char) (i n : Nat) :
    OccSepAt units cs i n ↔ sepLenAt units (cs.drop i) = some n := by
  constructor
  · rintro ⟨d, w, u, r, hdec, ⟨hdne, hdd⟩, hwws, rfl, hu⟩
    obtain ⟨c1, l1, hu1, hc1d, hc1w, hc1l⟩ := hhead (lowerL u) hu
    obtain ⟨c0, u', rfl⟩ : ∃ c0 u', u = c0 :: u' := by
      cases u with
      | nil => exact absurd hu1 (by simp [lowerL])
      | cons a b => exact ⟨a, b, rfl⟩
    have hc0l : lowerCh c0 = c1 := by
      have : lowerL (c0 :: u') = c1 :: l1 := hu1
      simpa [lowerL] using congrArg (fun l => l.headI) this
    have hc0d : isDigitCh c0 = false := by
      by_contra hx
      have hx' : isDigitCh c0 = true := by revert hx; cases isDigitCh c0 <;> simp
      have := digit_of_lower hc0l hx'
      rw [hc1d] at this; exact Bool.noConfusion this
    have hc0w : isWsCh c0 = false := by
      by_contra hx
      have hx' : isWsCh c0 = true := by revert hx; cases isWsCh c0 <;> simp
      have := ws_of_lower hc0l hx'
      rw [hc1w] at this; exact Bool.noConfusion this
    have hwd : ∀ c ∈ w, isDigitCh c = false := fun c hc =>
      ws_not_digit (hwws c hc)
    have hsplit : cs.drop i = d ++ (w ++ (c0 :: (u' ++ r))) := by
      rw [hdec]; simp
    have h1 : (cs.drop i).takeWhile isDigitCh = d := by
      rw [hsplit, takeWhile_all_append hdd]
      cases w with
      | nil =>
        simp only [List.nil_append]
        rw [List.takeWhile_cons_of_neg (by simp [hc0d]), List.append_nil]
      | cons x xs =>
        rw [List.cons_append,
          List.takeWhile_cons_of_neg
            (by simp [hwd x (List.mem_cons_self _ _)]),
          List.append_nil]
    have h2 : (cs.drop i).dropWhile isDigitCh = w ++ (c0 :: (u' ++ r)) := by
      rw [hsplit, dropWhile_all_append hdd]
      cases w with
      | nil =>
        simp only [List.nil_append]
        rw [List.dropWhile_cons_of_neg (by simp [hc0d])]
      | cons x xs =>
        rw [List.cons_append,
          List.dropWhile_cons_of_neg
            (by simp [hwd x (List.mem_cons_self _ _)])]
    have h3 : (w ++ (c0 :: (u' ++ r))).takeWhile isWsCh = w := by
      rw [takeWhile_all_append hwws,
        List.takeWhile_cons_of_neg (by simp [hc0w]), List.append_nil]
    have h4 : (w ++ (c0 :: (u' ++ r))).dropWhile isWsCh = c0 :: (u' ++ r) := by
      rw [dropWhile_all_append hwws,
        List.dropWhile_cons_of_neg (by simp [hc0w])]
    rw [sepLenAt, h1, h2, h3, h4, if_neg (by simp [List.isEmpty_iff, hdne]),
      if_pos (unitAt_isSome_of_hit hsepu hu
        (show c0 :: (u' ++ r) = (c0 :: u') ++ r by simp))]
  · intro h
    rw [sepLenAt] at h
    by_cases hD : ((cs.drop i).takeWhile isDigitCh).isEmpty
    · rw [if_pos hD] at h; exact absurd h (by simp)
    rw [if_neg hD] at h
    by_cases hU : (unitAt units
        ((cs.drop i).dropWhile isDigitCh |>.dropWhile isWsCh)).isSome
    · rw [if_pos hU] at h
      injection h with h
      rcases hU2 : unitAt units
          ((cs.drop i).dropWhile isDigitCh |>.dropWhile isWsCh) with _ | u
      · rw [hU2] at hU; exact Bool.noConfusion hU
      obtain ⟨hit, r, hr⟩ := unitAt_some hU2
      refine ⟨(cs.drop i).takeWhile isDigitCh,
        ((cs.drop i).dropWhile isDigitCh).takeWhile isWsCh, u, r, ?_,
        ⟨by simpa [List.isEmpty_iff] using hD,
          fun c hc => mem_takeWhile_pred hc⟩,
        fun c hc => mem_takeWhile_pred hc, h.symm, hit⟩
      exact split_decomp _ _ _ _ _ _
        (List.takeWhile_append_dropWhile _ _)
        (by rw [← hr]; exact List.takeWhile_append_dropWhile _ _)
    · rw [if_neg hU] at h; exact absurd h (by simp)

theorem occ_of_tokAtIs {sep : Char → Bool} {units : List (List Char)}
    {cs t : List Char} {i : Nat}
    (hsw : ∀ c, sep c = true → isWsCh c = true)
    (h : TokAtIs sep units cs i t) : ∃ n, n ≤ 1 ∧ OccSepAt units cs i n := by
  obtain ⟨⟨d, w, u, rfl, hd, hw, hu⟩, r, hr⟩ := h
  refine ⟨w.length, ?_, d, w, u, r, hr, hd, ?_, rfl, hu⟩
  · rcases hw with rfl | ⟨c, rfl, _⟩
    · simp
    · simp
  · rcases hw with rfl | ⟨c, rfl, hc⟩
    · intro x hx; simp at hx
    · intro x hx
      rcases List.mem_cons.mp hx with rfl | hx
      · exact hsw x hc
      · simp at hx

theorem sepLenAt_nil {units : List (List Char)} :
    sepLenAt units [] = none := rfl

/-- Bounded computational check implying the all-occurrences bound. -/
theorem occAll_ge {units : List (List Char)}
    (hhead : ∀ u ∈ units, ∃ c l, u = c :: l ∧ isDigitCh c = false ∧
      isWsCh c = false ∧ lowerCh c = c)
    (hsepu : ∀ u1 ∈ units, ∀ u2 ∈ units, ∀ cs : List Char,
      lowerL (cs.take u1.length) = u1 → lowerL (cs.take u2.length) = u2 →
      u1 = u2)
    (cs : List Char) (k : Nat)
    (H : ((List.range cs.length).all fun i =>
      match sepLenAt units (cs.drop i) with
      | some n => decide (k ≤ n)
      | none => true) = true) :
    ∀ i n, OccSepAt units cs i n → k ≤ n := by
  intro i n hocc
  rw [occSepAt_iff hhead hsepu] at hocc
  by_cases hi : i < cs.length
  · have hx := List.all_eq_true.mp H i (List.mem_range.mpr hi)
    rw [hocc] at hx
    dsimp only at hx
    exact of_decide_eq_true hx
  · rw [List.drop_eq_nil_of_le (Nat.le_of_not_lt hi)] at hocc
    rw [sepLenAt_nil] at hocc
    exact absurd hocc (by simp)

theorem unitsOK_ws_dur : UnitsOK isWsCh durUnits :=
  ⟨durUnits_head, fun _ h => h, durUnits_sep⟩

/-! ## The claims -/

/-- C1 counterexample: the keyword test of `extractMedicines` in
`src/server.js` accepts the line "syrup" although it contains no
decimal digit, so it is not true that every line without a digit is
rejected by the line classifier. -/
theorem claim1_counterexample :
    serverAccepts (("syrup").data) = true ∧
    (("syrup").data).all (fun c => !isDigitCh c) = true := by
  constructor <;> decide

/-- C1 (amended): the two classifiers differ from the claimed
digit-and-keyword rule.  In `src/server.js` a line is accepted exactly
when its lowercased form contains one of mg, tablet, tab, capsule,
syrup, ml — no digit is required; in `src/unnamed/part_003` a line is
accepted exactly when its trimmed form contains a digit and its
lowercased trimmed form contains one of mg, ml, tab, cap, bd, td, qd,
od — the keyword syrup is absent there. -/
theorem claim1_classifier_characterization (line : List Char) :
    (serverAccepts line = true ↔
      (InfixP (("mg").data) (lowerL line) ∨
       InfixP (("tablet").data) (lowerL line) ∨
       InfixP (("tab").data) (lowerL line) ∨
       InfixP (("capsule").data) (lowerL line) ∨
       InfixP (("syrup").data) (lowerL line) ∨
       InfixP (("ml").data) (lowerL line))) ∧
    (p3Accepts line = true ↔
      ((∃ c ∈ trimL line, isDigitCh c = true) ∧
       (InfixP (("mg").data) (lowerL (trimL line)) ∨
        InfixP (("ml").data) (lowerL (trimL line)) ∨
        InfixP (("tab").data) (lowerL (trimL line)) ∨
        InfixP (("cap").data) (lowerL (trimL line)) ∨
        InfixP (("bd").data) (lowerL (trimL line)) ∨
        InfixP (("td").data) (lowerL (trimL line)) ∨
        InfixP (("qd").data) (lowerL (trimL line)) ∨
        InfixP (("od").data) (lowerL (trimL line))))) := by
  constructor
  · rw [serverAccepts]
    simp only [Bool.or_eq_true, inclB_iff, or_assoc]
  · rw [p3Accepts]
    simp only [Bool.and_eq_true, Bool.or_eq_true, inclB_iff,
      List.any_eq_true, or_assoc]

/-- C2 counterexample: the line "Metformin 500mg qd" contains the
keyword qd and none of the keywords of the earlier precedence levels,
so by the claim it should map to "Once Daily"; `detectTiming` of
`src/server.js` never tests qd and returns the fallback instead. -/
theorem claim2_counterexample :
    detectTiming (("Metformin 500mg qd").data) =
      ("Follow doctor instructions").data ∧
    inclB (lowerL (("Metformin 500mg qd").data)) (("qd").data) = true ∧
    inclB (lowerL (("Metformin 500mg qd").data)) (("bd").data) = false ∧
    inclB (lowerL (("Metformin 500mg qd").data)) (("twice").data) = false ∧
    inclB (lowerL (("Metformin 500mg qd").data)) (("tds").data) = false ∧
    inclB (lowerL (("Metformin 500mg qd").data)) (("td").data) = false ∧
    inclB (lowerL (("Metformin 500mg qd").data)) (("thrice").data) = false ∧
    detectTiming (("Metformin 500mg qd").data) ≠ ("Once Daily").data := by
  refine ⟨by decide, by decide, by decide, by decide, by decide, by decide,
    by decide, by decide⟩

/-- C2 (amended): each timing extractor tests its own keyword list in
precedence order, first match wins, on the lowercased line.
`detectTiming` of `src/server.js` tests bd or twice, then tds or
thrice, then od or once (it knows neither qd nor bare td);
`extractTiming` of `src/unnamed/part_003` tests bd, then td, then qd or
od (it knows none of the English words).  On
"Amoxicillin 250mg bd od" both yield "Twice Daily" because bd is tested
first. -/
theorem claim2_timing_precedence (cs : List Char) :
    (((InfixP (("bd").data) (lowerL cs) ∨ InfixP (("twice").data) (lowerL cs)) →
        detectTiming cs = ("Twice Daily").data) ∧
      (¬(InfixP (("bd").data) (lowerL cs) ∨ InfixP (("twice").data) (lowerL cs)) →
        (InfixP (("tds").data) (lowerL cs) ∨ InfixP (("thrice").data) (lowerL cs)) →
        detectTiming cs = ("Three Times Daily").data) ∧
      (¬(InfixP (("bd").data) (lowerL cs) ∨ InfixP (("twice").data) (lowerL cs)) →
        ¬(InfixP (("tds").data) (lowerL cs) ∨ InfixP (("thrice").data) (lowerL cs)) →
        (InfixP (("od").data) (lowerL cs) ∨ InfixP (("once").data) (lowerL cs)) →
        detectTiming cs = ("Once Daily").data) ∧
      (¬(InfixP (("bd").data) (lowerL cs) ∨ InfixP (("twice").data) (lowerL cs)) →
        ¬(InfixP (("tds").data) (lowerL cs) ∨ InfixP (("thrice").data) (lowerL cs)) →
        ¬(InfixP (("od").data) (lowerL cs) ∨ InfixP (("once").data) (lowerL cs)) →
        detectTiming cs = ("Follow doctor instructions").data)) ∧
    ((InfixP (("bd").data) (lowerL cs) →
        extractTiming cs = ("Twice Daily").data) ∧
      (¬ InfixP (("bd").data) (lowerL cs) →
        InfixP (("td").data) (lowerL cs) →
        extractTiming cs = ("Three Times Daily").data) ∧
      (¬ InfixP (("bd").data) (lowerL cs) →
        ¬ InfixP (("td").data) (lowerL cs) →
        (InfixP (("qd").data) (lowerL cs) ∨ InfixP (("od").data) (lowerL cs)) →
        extractTiming cs = ("Once Daily").data) ∧
      (¬ InfixP (("bd").data) (lowerL cs) →
        ¬ InfixP (("td").data) (lowerL cs) →
        ¬(InfixP (("qd").data) (lowerL cs) ∨ InfixP (("od").data) (lowerL cs)) →
        extractTiming cs = ("Follow doctor instructions").data)) ∧
    detectTiming (("Amoxicillin 250mg bd od").data) = ("Twice Daily").data ∧
    extractTiming (("Amoxicillin 250mg bd od").data) = ("Twice Daily").data := by
  refine ⟨⟨?_, ?_, ?_, ?_⟩, ⟨?_, ?_, ?_, ?_⟩, by decide, by decide⟩
  · intro h
    rw [detectTiming, if_pos (by rcases h with h | h <;>
      simp [inclB_of_infixP h])]
  · intro h1 h2
    obtain ⟨ha, hb⟩ := not_or.mp h1
    rw [detectTiming, if_neg (by
        simp [inclB_of_notInfixP ha, inclB_of_notInfixP hb]),
      if_pos (by rcases h2 with h | h <;> simp [inclB_of_infixP h])]
  · intro h1 h2 h3
    obtain ⟨ha, hb⟩ := not_or.mp h1
    obtain ⟨hc, hd⟩ := not_or.mp h2
    rw [detectTiming, if_neg (by
        simp [inclB_of_notInfixP ha, inclB_of_notInfixP hb]),
      if_neg (by simp [inclB_of_notInfixP hc, inclB_of_notInfixP hd]),
      if_pos (by rcases h3 with h | h <;> simp [inclB_of_infixP h])]
  · intro h1 h2 h3
    obtain ⟨ha, hb⟩ := not_or.mp h1
    obtain ⟨hc, hd⟩ := not_or.mp h2
    obtain ⟨he, hf⟩ := not_or.mp h3
    rw [detectTiming, if_neg (by
        simp [inclB_of_notInfixP ha, inclB_of_notInfixP hb]),
      if_neg (by simp [inclB_of_notInfixP hc, inclB_of_notInfixP hd]),
      if_neg (by simp [inclB_of_notInfixP he, inclB_of_notInfixP hf])]
  · intro h
    rw [extractTiming, if_pos (inclB_of_infixP h)]
  · intro h1 h2
    rw [extractTiming, if_neg (by simp [inclB_of_notInfixP h1]),
      if_pos (inclB_of_infixP h2)]
  · intro h1 h2 h3
    rw [extractTiming, if_neg (by simp [inclB_of_notInfixP h1]),
      if_neg (by simp [inclB_of_notInfixP h2]),
      if_pos (by rcases h3 with h | h <;> simp [inclB_of_infixP h])]
  · intro h1 h2 h3
    obtain ⟨he, hf⟩ := not_or.mp h3
    rw [extractTiming, if_neg (by simp [inclB_of_notInfixP h1]),
      if_neg (by simp [inclB_of_notInfixP h2]),
      if_neg (by simp [inclB_of_notInfixP he, inclB_of_notInfixP hf])]

/-- C3 counterexample: on a line containing a carriage return after the
dosage token, `extractMedicineName` of `src/unnamed/part_003` is not a
truncation at the first dosage occurrence: the regex dot of `.*` stops
at the carriage return, so the tail after it survives.  On
"A 5mg\rB" the first dosage occurrence starts at index 2, truncating
and trimming would give "A", but the function returns "A \rB". -/
theorem claim3_counterexample :
    extractMedicineName (("A 5mg").data ++ '\r' :: ("B").data) =
      ("A ").data ++ '\r' :: ("B").data ∧
    TokAtIs isWsCh doseUnits (("A 5mg").data ++ '\r' :: ("B").data) 2
      (("5mg").data) ∧
    (∀ j < 2, ¬ TokAt isWsCh doseUnits
      (("A 5mg").data ++ '\r' :: ("B").data) j) ∧
    trimL ((("A 5mg").data ++ '\r' :: ("B").data).take 2) = ("A").data ∧
    extractMedicineName (("A 5mg").data ++ '\r' :: ("B").data) ≠
      trimL ((("A 5mg").data ++ '\r' :: ("B").data).take 2) := by
  refine ⟨by decide,
    ⟨(tokMatch_iff_doseAt unitsOK_ws_dose _).mpr (by decide),
      '\r' :: ("B").data, by decide⟩,
    ?_, by decide, by decide⟩
  intro j hj
  rw [tokAt_iff_doseAt unitsOK_ws_dose]
  rcases j with _ | _ | j
  · decide
  · decide
  · exact absurd hj (by omega)

/-- C3 (amended): for every line free of carriage returns and line
feeds (a line split off the OCR text never contains a line feed, but it
can retain a carriage return), `extractMedicineName` of
`src/unnamed/part_003` returns the trimmed whole line when no dosage
token occurs in it, and otherwise truncates the line at the first
dosage-token occurrence and trims the result. -/
theorem claim3_name_normalizer (cs : List Char) (hr : '\r' ∉ cs)
    (hn : '\n' ∉ cs) :
    ((∀ i, ¬ TokAt isWsCh doseUnits cs i) ∧
      extractMedicineName cs = trimL cs) ∨
    (∃ i t, TokAtIs isWsCh doseUnits cs i t ∧
      (∀ j < i, ¬ TokAt isWsCh doseUnits cs j) ∧
      extractMedicineName cs = trimL (cs.take i)) := by
  rcases findDose_cases unitsOK_ws_dose cs with ⟨hno, hF⟩ |
    ⟨i, t, hTok, hmin, hF⟩
  · left
    exact ⟨hno, by rw [extractMedicineName, hF]⟩
  · right
    refine ⟨i, t, hTok, hmin, ?_⟩
    rw [extractMedicineName, hF]
    dsimp only
    have hall : (cs.drop (i + t.length)).dropWhile dotOk = [] := by
      rw [List.dropWhile_eq_nil_iff]
      intro c hc
      have hcs : c ∈ cs := List.mem_of_mem_drop hc
      have h1 : ¬ c = '\n' := fun h => hn (h ▸ hcs)
      have h2 : ¬ c = '\r' := fun h => hr (h ▸ hcs)
      simp [dotOk, h1, h2]
    rw [hall, List.append_nil]

/-- C3 witness: the amended statement applied to the spec's own
example; on "Paracetamol 500mg bd 5 days" the normalizer indeed yields
"Paracetamol". -/
theorem claim3_witness :
    (('\r' ∉ ("Paracetamol 500mg bd 5 days").data ∧
      '\n' ∉ ("Paracetamol 500mg bd 5 days").data) ∧
     (((∀ i, ¬ TokAt isWsCh doseUnits
          (("Paracetamol 500mg bd 5 days").data) i) ∧
        extractMedicineName (("Paracetamol 500mg bd 5 days").data) =
          trimL (("Paracetamol 500mg bd 5 days").data)) ∨
      (∃ i t, TokAtIs isWsCh doseUnits
          (("Paracetamol 500mg bd 5 days").data) i t ∧
        (∀ j < i, ¬ TokAt isWsCh doseUnits
          (("Paracetamol 500mg bd 5 days").data) j) ∧
        extractMedicineName (("Paracetamol 500mg bd 5 days").data) =
          trimL ((("Paracetamol 500mg bd 5 days").data).take i)))) ∧
    extractMedicineName (("Paracetamol 500mg bd 5 days").data) =
      ("Paracetamol").data :=
  ⟨⟨⟨by decide, by decide⟩,
    claim3_name_normalizer (("Paracetamol 500mg bd 5 days").data)
      (by decide) (by decide)⟩, by decide⟩

/-- C4: the extraction pipeline of `src/server.js` is a total function
of the input text (it is defined for every `text`); the `medicines`
field of the response is the single placeholder entry exactly when no
line of the text passes the keyword test; the placeholder is never
mixed with real entries; and empty input yields the placeholder and the
doctor fallback. -/
theorem claim4_pipeline_total (text : List Char) :
    (analyzeMedicines text = [placeholderEntry] ↔
      ∀ l ∈ splitLines text, serverAccepts l = false) ∧
    (placeholderEntry ∈ analyzeMedicines text →
      analyzeMedicines text = [placeholderEntry]) ∧
    analyzeResult [] =
      ⟨[placeholderEntry], ("Doctor name not detected").data⟩ := by
  have hnotph : ∀ e : MedEntry, toResp e ≠ placeholderEntry := by
    intro e he
    have := congrArg RespEntry.dosage he
    simp [toResp, placeholderEntry] at this
  refine ⟨?_, ?_, by decide⟩
  · by_cases h : (extractMedicines text).length > 0
    · rw [analyzeMedicines, if_pos h]
      constructor
      · intro hmap
        exfalso
        rcases hms : extractMedicines text with _ | ⟨e, tl⟩
        · rw [hms] at h; simp at h
        · rw [hms] at hmap
          rw [List.map_cons] at hmap
          injection hmap with h1 h2
          exact hnotph e h1
      · intro hall
        exfalso
        have hnil : extractMedicines text = [] := by
          rw [extractMedicines, medsFold_eq]
          have : (splitLines text).filter serverAccepts = [] := by
            rw [List.filter_eq_nil_iff]
            intro a ha
            simp [hall a ha]
          rw [this]; rfl
        rw [hnil] at h
        simp at h
    · rw [analyzeMedicines, if_neg h]
      have hnil : extractMedicines text = [] := by
        rcases hms : extractMedicines text with _ | ⟨e, tl⟩
        · rfl
        · rw [hms] at h; simp at h
      constructor
      · intro _ l hl
        by_contra hacc
        have hacc' : serverAccepts l = true := by
          revert hacc; cases serverAccepts l <;> simp
        have hmem : mkServerEntry l ∈ extractMedicines text := by
          rw [extractMedicines, medsFold_eq]
          exact List.mem_map_of_mem _ (List.mem_filter.mpr ⟨hl, hacc'⟩)
        rw [hnil] at hmem
        simp at hmem
      · intro _; rfl
  · intro hmem
    by_cases h : (extractMedicines text).length > 0
    · rw [analyzeMedicines, if_pos h] at hmem
      obtain ⟨e, _, he⟩ := List.mem_map.mp hmem
      exact absurd he (hnotph e)
    · rw [analyzeMedicines, if_neg h]

/-- C5: the pipelines of `src/server.js` and `src/unnamed/part_003`
keep exactly one entry per accepted line, in the original line order,
each computed from its own line alone: the medicine list is the map of
the per-line record constructor over the filtered line list, and its
length is the number of accepted lines. -/
theorem claim5_order_preserved (text : List Char) :
    extractMedicines text =
      ((splitLines text).filter serverAccepts).map mkServerEntry ∧
    (extractMedicines text).length =
      (splitLines text).countP serverAccepts ∧
    detectMedicines text =
      ((splitLines text).filter p3Accepts).map mkP3Entry ∧
    (detectMedicines text).length =
      (splitLines text).countP p3Accepts := by
  refine ⟨medsFold_eq _ _ _, ?_, medsFold_eq _ _ _, ?_⟩
  · rw [extractMedicines, medsFold_eq, List.length_map,
      List.countP_eq_length_filter]
  · rw [detectMedicines, medsFold_eq, List.length_map,
      List.countP_eq_length_filter]

/-- C6 counterexample: on "5\tmg" the whole line is one
digits-whitespace-unit token, yet `extractDosage` of `src/server.js`
returns the sentinel instead of that substring, because its pattern
accepts only a literal space, not arbitrary whitespace, between the
digits and the unit. -/
theorem claim6_counterexample :
    extractDosage ('5' :: '\t' :: ("mg").data) = ("Not specified").data ∧
    TokMatch isWsCh doseUnits ('5' :: '\t' :: ("mg").data) ∧
    extractDosage ('5' :: '\t' :: ("mg").data) ≠
      '5' :: '\t' :: ("mg").data := by
  refine ⟨by decide,
    (tokMatch_iff_doseAt unitsOK_ws_dose _).mpr (by decide), by decide⟩

/-- C6 (amended): each dosage extractor returns the token of the
leftmost occurrence of its own pattern, verbatim, or the sentinel
"Not specified" when no occurrence exists.  The pattern of
`extractDosage` in `src/server.js` allows at most one literal space
between the digits and mg/ml; the pattern of `extractDosage` in
`src/unnamed/part_003` allows at most one whitespace character.  On
"Paracetamol 500mg bd 5 days" the extractor returns "500mg". -/
theorem claim6_dosage_extractor (cs : List Char) :
    (((∀ i, ¬ TokAt isSpaceCh doseUnits cs i) ∧
        extractDosage cs = ("Not specified").data) ∨
      (∃ i t, TokAtIs isSpaceCh doseUnits cs i t ∧
        (∀ j < i, ¬ TokAt isSpaceCh doseUnits cs j) ∧
        extractDosage cs = t)) ∧
    (((∀ i, ¬ TokAt isWsCh doseUnits cs i) ∧
        extractDosage3 cs = ("Not specified").data) ∨
      (∃ i t, TokAtIs isWsCh doseUnits cs i t ∧
        (∀ j < i, ¬ TokAt isWsCh doseUnits cs j) ∧
        extractDosage3 cs = t)) ∧
    extractDosage (("Paracetamol 500mg bd 5 days").data) =
      ("500mg").data := by
  refine ⟨?_, ?_, by decide⟩
  · rcases findDose_cases unitsOK_space_dose cs with ⟨hno, hF⟩ |
      ⟨i, t, hT, hm, hF⟩
    · left; exact ⟨hno, by rw [extractDosage, hF]⟩
    · right; exact ⟨i, t, hT, hm, by rw [extractDosage, hF]⟩
  · rcases findDose_cases unitsOK_ws_dose cs with ⟨hno, hF⟩ |
      ⟨i, t, hT, hm, hF⟩
    · left; exact ⟨hno, by rw [extractDosage3, hF]⟩
    · right; exact ⟨i, t, hT, hm, by rw [extractDosage3, hF]⟩

/-- C7 counterexample: on "3\tdays" the whole line is one
digits-whitespace-duration token, yet `detectDuration` of
`src/server.js` returns the sentinel instead of that substring, because
its pattern accepts only a literal space before days/weeks. -/
theorem claim7_counterexample :
    detectDuration ('3' :: '\t' :: ("days").data) =
      ("As prescribed").data ∧
    TokMatch isWsCh durUnits ('3' :: '\t' :: ("days").data) ∧
    detectDuration ('3' :: '\t' :: ("days").data) ≠
      '3' :: '\t' :: ("days").data := by
  refine ⟨by decide,
    (tokMatch_iff_doseAt unitsOK_ws_dur _).mpr (by decide), by decide⟩

/-- C7 (amended): `detectDuration` of `src/server.js` returns the token
of the leftmost occurrence of "digits, at most one literal space, then
days or weeks" verbatim, or the sentinel "As prescribed" when no such
occurrence exists (the `src/unnamed/part_003` pipeline has no duration
extractor at all and stores the sentinel unconditionally).  On
"Azithromycin 500mg od 3 days" it returns "3 days". -/
theorem claim7_duration_extractor (cs : List Char) :
    (((∀ i, ¬ TokAt isSpaceCh durUnits cs i) ∧
        detectDuration cs = ("As prescribed").data) ∨
      (∃ i t, TokAtIs isSpaceCh durUnits cs i t ∧
        (∀ j < i, ¬ TokAt isSpaceCh durUnits cs j) ∧
        detectDuration cs = t)) ∧
    (mkP3Entry cs).duration = ("As prescribed").data ∧
    detectDuration (("Azithromycin 500mg od 3 days").data) =
      ("3 days").data := by
  refine ⟨?_, rfl, by decide⟩
  rcases findDose_cases unitsOK_space_dur cs with ⟨hno, hF⟩ |
    ⟨i, t, hT, hm, hF⟩
  · left; exact ⟨hno, by rw [detectDuration, hF]⟩
  · right; exact ⟨i, t, hT, hm, by rw [detectDuration, hF]⟩

/-- C8: `extractDoctorName` (identical in `src/server.js` and
`src/unnamed/part_003`) returns the trimmed text of the first line
whose lowercased form contains the substring dr, scanning lines in
original order and stopping at the first match, and returns the
fallback "Doctor name not detected" when no line matches. -/
theorem claim8_doctor_locator (text : List Char) :
    ((∀ l ∈ splitLines text, ¬ InfixP (("dr").data) (lowerL l)) ∧
      extractDoctorName text = ("Doctor name not detected").data) ∨
    (∃ pre l post, splitLines text = pre ++ l :: post ∧
      InfixP (("dr").data) (lowerL l) ∧
      (∀ l' ∈ pre, ¬ InfixP (("dr").data) (lowerL l')) ∧
      extractDoctorName text = trimL l) := by
  rcases findDoctor_cases (splitLines text) with ⟨hall, heq⟩ |
    ⟨pre, l, post, hsplit, hl, hpre, heq⟩
  · left
    refine ⟨fun l hl hinf => ?_, by rw [extractDoctorName]; exact heq⟩
    have := inclB_of_infixP hinf
    rw [hall l hl] at this
    exact Bool.noConfusion this
  · right
    refine ⟨pre, l, post, hsplit, (inclB_iff _ _).mp hl,
      fun l' h hinf => ?_, by rw [extractDoctorName]; exact heq⟩
    have := inclB_of_infixP hinf
    rw [hpre l' h] at this
    exact Bool.noConfusion this

/-- C9 counterexample: the `part_002` handler, also cited by the claim,
fills the fields of every entry with fixed strings: on the accepted line
"Paracetamol 500mg" it stores duration "Check prescription", which is
neither a digits-plus-days/weeks token nor the sentinel
"As prescribed", and dosage "As prescribed", which is neither a
digits-plus-unit token nor the sentinel "Not specified". -/
theorem claim9_counterexample :
    mkP2Entry (("Paracetamol 500mg").data) ∈
      p2Medicines (("Paracetamol 500mg").data) ∧
    (mkP2Entry (("Paracetamol 500mg").data)).duration ≠
      ("As prescribed").data ∧
    ¬ TokMatch isWsCh durUnits
      (mkP2Entry (("Paracetamol 500mg").data)).duration ∧
    (mkP2Entry (("Paracetamol 500mg").data)).dosage ≠
      ("Not specified").data ∧
    ¬ TokMatch isWsCh doseUnits
      (mkP2Entry (("Paracetamol 500mg").data)).dosage := by
  refine ⟨by decide, by decide, ?_, by decide, ?_⟩
  · rw [tokMatch_iff_doseAt unitsOK_ws_dur]
    decide
  · rw [tokMatch_iff_doseAt unitsOK_ws_dose]
    decide

/-- C9 (amended): in the pipelines of `src/server.js` and
`src/unnamed/part_003` every produced entry has its fields in the
claimed codomains: the timing is one of the three frequency labels or
the fallback; the dosage is a digits-plus-unit token occurring in the
entry's own line or the sentinel "Not specified"; the duration is a
digits-plus-days/weeks token from the line or the sentinel
"As prescribed" (in `part_003` always that sentinel).  The older
`part_002` handler does not satisfy this: it stores the fixed strings
"As prescribed" / "Follow doctor instructions" / "Check prescription"
in every entry. -/
theorem claim9_field_codomains (text : List Char) (e : MedEntry) :
    (e ∈ extractMedicines text →
      ∃ line, line ∈ splitLines text ∧
        (e.timing = ("Twice Daily").data ∨
          e.timing = ("Three Times Daily").data ∨
          e.timing = ("Once Daily").data ∨
          e.timing = ("Follow doctor instructions").data) ∧
        (e.dosage = ("Not specified").data ∨
          (TokMatch isSpaceCh doseUnits e.dosage ∧ InfixP e.dosage line)) ∧
        (e.duration = ("As prescribed").data ∨
          (TokMatch isSpaceCh durUnits e.duration ∧
            InfixP e.duration line))) ∧
    (e ∈ detectMedicines text →
      ∃ line, line ∈ splitLines text ∧
        (e.timing = ("Twice Daily").data ∨
          e.timing = ("Three Times Daily").data ∨
          e.timing = ("Once Daily").data ∨
          e.timing = ("Follow doctor instructions").data) ∧
        (e.dosage = ("Not specified").data ∨
          (TokMatch isWsCh doseUnits e.dosage ∧
            InfixP e.dosage (trimL line))) ∧
        e.duration = ("As prescribed").data) := by
  constructor
  · intro hmem
    obtain ⟨line, hline, hacc, rfl⟩ := mem_medsFold hmem
    refine ⟨line, hline, detectTiming_mem line, ?_, ?_⟩
    · dsimp only [mkServerEntry]
      rcases findDose_cases unitsOK_space_dose line with ⟨hno, hF⟩ |
        ⟨i, t, ⟨hTm, r, hr⟩, hm, hF⟩
      · left; rw [extractDosage, hF]
      · right
        have : extractDosage line = t := by rw [extractDosage, hF]
        rw [this]
        exact ⟨hTm, infixP_of_drop hr⟩
    · dsimp only [mkServerEntry]
      rcases findDose_cases unitsOK_space_dur line with ⟨hno, hF⟩ |
        ⟨i, t, ⟨hTm, r, hr⟩, hm, hF⟩
      · left; rw [detectDuration, hF]
      · right
        have : detectDuration line = t := by rw [detectDuration, hF]
        rw [this]
        exact ⟨hTm, infixP_of_drop hr⟩
  · intro hmem
    obtain ⟨line, hline, hacc, rfl⟩ := mem_medsFold hmem
    refine ⟨line, hline, extractTiming_mem (trimL line), ?_, rfl⟩
    dsimp only [mkP3Entry]
    rcases findDose_cases unitsOK_ws_dose (trimL line) with ⟨hno, hF⟩ |
      ⟨i, t, ⟨hTm, r, hr⟩, hm, hF⟩
    · left; rw [extractDosage3, hF]
    · right
      have : extractDosage3 (trimL line) = t := by rw [extractDosage3, hF]
      rw [this]
      exact ⟨hTm, infixP_of_drop hr⟩

/-- C10: the dosage and duration patterns allow at most one single
separator character between the digits and the unit word, so on any
line that does contain a digits-whitespace-unit occurrence but in which
every such occurrence separates the digits from the unit by two or more
whitespace characters, `extractDosage` of `src/server.js`,
`extractDosage` of `src/unnamed/part_003` and `detectDuration` of
`src/server.js` all return their sentinels although a dosage or
duration is visually present. -/
theorem claim10_single_space (cs : List Char)
    (hdoseVis : ∃ i n, OccSepAt doseUnits cs i n)
    (hdoseWide : ∀ i n, OccSepAt doseUnits cs i n → 2 ≤ n)
    (hdurVis : ∃ i n, OccSepAt durUnits cs i n)
    (hdurWide : ∀ i n, OccSepAt durUnits cs i n → 2 ≤ n) :
    extractDosage cs = ("Not specified").data ∧
    extractDosage3 cs = ("Not specified").data ∧
    detectDuration cs = ("As prescribed").data := by
  refine ⟨?_, ?_, ?_⟩
  · rcases findDose_cases unitsOK_space_dose cs with ⟨hno, hF⟩ |
      ⟨i, t, hTok, hm, hF⟩
    · rw [extractDosage, hF]
    · obtain ⟨n, hn1, hocc⟩ := occ_of_tokAtIs unitsOK_space_dose.sep_ws hTok
      exact absurd (hdoseWide i n hocc) (by omega)
  · rcases findDose_cases unitsOK_ws_dose cs with ⟨hno, hF⟩ |
      ⟨i, t, hTok, hm, hF⟩
    · rw [extractDosage3, hF]
    · obtain ⟨n, hn1, hocc⟩ := occ_of_tokAtIs unitsOK_ws_dose.sep_ws hTok
      exact absurd (hdoseWide i n hocc) (by omega)
  · rcases findDose_cases unitsOK_space_dur cs with ⟨hno, hF⟩ |
      ⟨i, t, hTok, hm, hF⟩
    · rw [detectDuration, hF]
    · obtain ⟨n, hn1, hocc⟩ := occ_of_tokAtIs unitsOK_space_dur.sep_ws hTok
      exact absurd (hdurWide i n hocc) (by omega)

/-- C10 witness: on "Take 500  mg for 3  days" both a dosage and a
duration are visually present but separated by two spaces, and all
three extractors return their sentinels. -/
theorem claim10_witness :
    (∃ i n, OccSepAt doseUnits (("Take 500  mg for 3  days").data) i n) ∧
    (∃ i n, OccSepAt durUnits (("Take 500  mg for 3  days").data) i n) ∧
    extractDosage (("Take 500  mg for 3  days").data) =
      ("Not specified").data ∧
    extractDosage3 (("Take 500  mg for 3  days").data) =
      ("Not specified").data ∧
    detectDuration (("Take 500  mg for 3  days").data) =
      ("As prescribed").data := by
  have hdoseVis : ∃ i n, OccSepAt doseUnits
      (("Take 500  mg for 3  days").data) i n :=
    ⟨5, 2, (occSepAt_iff doseUnits_head doseUnits_sep _ 5 2).mpr (by decide)⟩
  have hdurVis : ∃ i n, OccSepAt durUnits
      (("Take 500  mg for 3  days").data) i n :=
    ⟨17, 2, (occSepAt_iff durUnits_head durUnits_sep _ 17 2).mpr (by decide)⟩
  have hdoseWide : ∀ i n, OccSepAt doseUnits
      (("Take 500  mg for 3  days").data) i n → 2 ≤ n :=
    occAll_ge doseUnits_head doseUnits_sep _ 2 (by decide)
  have hdurWide : ∀ i n, OccSepAt durUnits
      (("Take 500  mg for 3  days").data) i n → 2 ≤ n :=
    occAll_ge durUnits_head durUnits_sep _ 2 (by decide)
  obtain ⟨h1, h2, h3⟩ := claim10_single_space
    (("Take 500  mg for 3  days").data) hdoseVis hdoseWide hdurVis hdurWide
  exact ⟨hdoseVis, hdurVis, h1, h2, h3⟩
